import Mathlib

/-!
Verification development for the openclaw-dashboard repository.

The definitions below are a shallow embedding of the data-reconciliation
layer of `src/app/api/dashboard-data/route.ts` and of the build script
`scripts/generate-live-data.js`.  JavaScript strings are modelled as Lean
`String`/`List Char`; JavaScript numbers that hold token counts or epoch
milliseconds are modelled as `Int` (the claims never exercise the
floating-point edge of JS numbers); optional/undefined fields are `Option`.
Monetary cost, produced in the source by `Number((tokens * 0.0000263).toFixed(4))`,
is modelled in fixed-point units of 10^-4 (so the JS value 0.0263 is the
integer 263); this matches the source exactly on the non-negative integer
token counts the dashboard manipulates.
-/

/-! ## Generic JavaScript-style string helpers -/

/-- JavaScript-style whitespace test (space, tab, CR, LF - the characters the
dashboard's inputs actually contain). -/
def jsWs (c : Char) : Bool := c.isWhitespace

/-- Drop leading whitespace, as the front half of `String.prototype.trim`. -/
def ltrimL (l : List Char) : List Char := l.dropWhile jsWs

/-- Drop trailing whitespace, as the back half of `String.prototype.trim`. -/
def rtrimL (l : List Char) : List Char := (l.reverse.dropWhile jsWs).reverse

/-- Model of `String.prototype.trim` on character lists. -/
def trimList (l : List Char) : List Char := rtrimL (ltrimL l)

/-- Model of `String.prototype.trim`. -/
def jsTrim (s : String) : String := String.mk (trimList s.data)

/-- JavaScript `a || b` on an optional string: the empty string is falsy. -/
def jsOr (o : Option String) (d : String) : String :=
  match o with
  | some s => if s = "" then d else s
  | none => d

/-- `p` is a prefix of `s`; model of `String.prototype.startsWith`. -/
def strStarts : List Char → List Char → Bool
  | [], _ => true
  | _ :: _, [] => false
  | a :: p, b :: s => a = b && strStarts p s

/-- Split a character list at every occurrence of `sep`, like
`String.prototype.split(sep)` for a single-character separator. -/
def splitOnChar (sep : Char) : List Char → List (List Char)
  | [] => [[]]
  | c :: rest =>
    let r := splitOnChar sep rest
    if c = sep then [] :: r
    else
      match r with
      | [] => [[c]]
      | h :: t => (c :: h) :: t

/-- Remove a single trailing carriage return, used when modelling
`split(/\r?\n/)`. -/
def stripCr (l : List Char) : List Char :=
  match l.reverse with
  | '\r' :: t => t.reverse
  | _ => l

/-- Model of `String.prototype.split(/\r?\n/)`: split at every LF and strip
the CR that directly precedes an LF (the final piece keeps a lone CR). -/
def splitLines (cs : List Char) : List (List Char) :=
  go (splitOnChar '\n' cs)
where
  go : List (List Char) → List (List Char)
    | [] => []
    | [last] => [last]
    | piece :: rest => stripCr piece :: go rest

/-! ## JSON values and a model of `JSON.parse`

`JSON.parse` is the JavaScript standard library; the parser below models it
faithfully for the payloads the dashboard manipulates: the four whitespace
characters of the JSON grammar, strict literals, strings with the standard
escapes (a lone `\u` escape becomes the corresponding scalar value; the
claims never exercise surrogate pairs), and numbers kept as their source
lexeme.  Trailing non-whitespace after the parsed value is a parse error,
exactly as in `JSON.parse`. -/

inductive Json where
  | null : Json
  | bool (b : Bool) : Json
  | num (lexeme : String) : Json
  | str (s : String) : Json
  | arr (elems : List Json) : Json
  | obj (members : List (String × Json)) : Json
deriving BEq

/-- The whitespace accepted by the JSON grammar. -/
def jsonWs (c : Char) : Bool := c = ' ' || c = '\t' || c = '\n' || c = '\r'

/-- Numeric value of one hexadecimal digit. -/
def hexDigitVal (c : Char) : Option Nat :=
  if '0' ≤ c ∧ c ≤ '9' then some (c.toNat - '0'.toNat)
  else if 'a' ≤ c ∧ c ≤ 'f' then some (c.toNat - 'a'.toNat + 10)
  else if 'A' ≤ c ∧ c ≤ 'F' then some (c.toNat - 'A'.toNat + 10)
  else none

/-- Body of a JSON string after the opening quote; returns the decoded string
and the input past the closing quote. -/
def parseStringBody (acc : List Char) : List Char → Option (String × List Char)
  | [] => none
  | '"' :: rest => some (String.mk acc.reverse, rest)
  | '\\' :: esc =>
    match esc with
    | '"' :: r => parseStringBody ('"' :: acc) r
    | '\\' :: r => parseStringBody ('\\' :: acc) r
    | '/' :: r => parseStringBody ('/' :: acc) r
    | 'b' :: r => parseStringBody ('\x08' :: acc) r
    | 'f' :: r => parseStringBody ('\x0c' :: acc) r
    | 'n' :: r => parseStringBody ('\n' :: acc) r
    | 'r' :: r => parseStringBody ('\r' :: acc) r
    | 't' :: r => parseStringBody ('\t' :: acc) r
    | 'u' :: a :: b :: c :: d :: r =>
      match hexDigitVal a, hexDigitVal b, hexDigitVal c, hexDigitVal d with
      | some va, some vb, some vc, some vd =>
        parseStringBody (Char.ofNat (((va * 16 + vb) * 16 + vc) * 16 + vd) :: acc) r
      | _, _, _, _ => none
    | _ => none
  | c :: rest => if c.toNat < 32 then none else parseStringBody (c :: acc) rest

/-- Tail of a JSON number lexeme: optional fraction and exponent.  A dot or
exponent marker that is not followed by digits is left unconsumed, which makes
the surrounding parse fail exactly where `JSON.parse` reports a syntax
error. -/
def numTail (intPart : List Char) (r : List Char) : Option (String × List Char) :=
  let fr : List Char × List Char :=
    match r with
    | '.' :: rr =>
      let fs := rr.takeWhile Char.isDigit
      if fs = [] then ([], r) else ('.' :: fs, rr.drop fs.length)
    | _ => ([], r)
  let r2 := fr.2
  let ex : List Char × List Char :=
    match r2 with
    | e :: rr =>
      if e = 'e' ∨ e = 'E' then
        let sg : List Char × List Char :=
          match rr with
          | '+' :: t => (['+'], t)
          | '-' :: t => (['-'], t)
          | _ => ([], rr)
        let es := sg.2.takeWhile Char.isDigit
        if es = [] then ([], r2) else (e :: (sg.1 ++ es), sg.2.drop es.length)
      else ([], r2)
    | _ => ([], r2)
  some (String.mk (intPart ++ fr.1 ++ ex.1), ex.2)

/-- A JSON number lexeme at the front of the input (JSON forbids leading
zeros, so after a leading `0` the integer part stops). -/
def parseNumberLex (cs : List Char) : Option (String × List Char) :=
  let sg : List Char × List Char :=
    match cs with
    | '-' :: r => (['-'], r)
    | _ => ([], cs)
  match sg.2 with
  | '0' :: r => numTail (sg.1 ++ ['0']) r
  | c :: r =>
    if c.isDigit then
      let ds := (c :: r).takeWhile Char.isDigit
      numTail (sg.1 ++ ds) ((c :: r).drop ds.length)
    else none
  | [] => none

mutual

/-- One JSON value at the front of the input (leading whitespace allowed). -/
def parseVal : Nat → List Char → Option (Json × List Char)
  | 0, _ => none
  | Nat.succ f, cs0 =>
    let cs := cs0.dropWhile jsonWs
    match cs with
    | 't' :: 'r' :: 'u' :: 'e' :: r => some (Json.bool true, r)
    | 'f' :: 'a' :: 'l' :: 's' :: 'e' :: r => some (Json.bool false, r)
    | 'n' :: 'u' :: 'l' :: 'l' :: r => some (Json.null, r)
    | '"' :: r =>
      match parseStringBody [] r with
      | some (s, r2) => some (Json.str s, r2)
      | none => none
    | '[' :: r =>
      match (r.dropWhile jsonWs) with
      | ']' :: r2 => some (Json.arr [], r2)
      | _ => parseArrElems f [] r
    | '{' :: r =>
      match (r.dropWhile jsonWs) with
      | '}' :: r2 => some (Json.obj [], r2)
      | _ => parseObjMembers f [] r
    | _ =>
      match parseNumberLex cs with
      | some (lex, r) => some (Json.num lex, r)
      | none => none

/-- Comma-separated array elements up to the closing bracket. -/
def parseArrElems : Nat → List Json → List Char → Option (Json × List Char)
  | 0, _, _ => none
  | Nat.succ f, acc, cs =>
    match parseVal f cs with
    | some (v, r) =>
      match r.dropWhile jsonWs with
      | ',' :: r2 => parseArrElems f (acc ++ [v]) r2
      | ']' :: r2 => some (Json.arr (acc ++ [v]), r2)
      | _ => none
    | none => none

/-- Comma-separated `"key": value` members up to the closing brace. -/
def parseObjMembers : Nat → List (String × Json) → List Char → Option (Json × List Char)
  | 0, _, _ => none
  | Nat.succ f, acc, cs =>
    match cs.dropWhile jsonWs with
    | '"' :: r =>
      match parseStringBody [] r with
      | some (k, r2) =>
        match r2.dropWhile jsonWs with
        | ':' :: r3 =>
          match parseVal f r3 with
          | some (v, r4) =>
            match r4.dropWhile jsonWs with
            | ',' :: r5 => parseObjMembers f (acc ++ [(k, v)]) r5
            | '}' :: r5 => some (Json.obj (acc ++ [(k, v)]), r5)
            | _ => none
          | none => none
        | _ => none
      | none => none
    | _ => none

end

/-- Model of `JSON.parse`: parse one value and require only whitespace after
it. -/
def jsonParse (s : String) : Option Json :=
  match parseVal (2 * s.data.length + 2) s.data with
  | some (j, rest) => if rest.dropWhile jsonWs = [] then some j else none
  | none => none

/-! ## CLI JSON extraction

`runOpenClawJson` (route.ts) and `runCommand` (generate-live-data.js) both
wrap `openclaw <args> --json`, but they extract JSON from the noisy stdout
differently.  The process-level outcome is abstracted as `CliOutcome`:
`execError` stands for any rejected execution (missing binary, timeout,
non-zero exit), which both functions catch. -/

inductive CliOutcome where
  | execError : CliOutcome
  | output (stdout : String) : CliOutcome

/-- Model of `runOpenClawJson` (route.ts lines 608-643): trim stdout, find the
first `[` or `{`, and parse everything from that character to the end of the
output; `null` when no bracket exists, the parse fails, or execution failed. -/
def runOpenClawJson_model : CliOutcome → Option Json
  | CliOutcome.execError => none
  | CliOutcome.output s =>
    let t := trimList s.data
    match t.dropWhile (fun c => !(c = '[' || c = '{')) with
    | [] => none
    | suffix => jsonParse (String.mk suffix)

/-- Per-line bracket/brace depth delta used by `runCommand`'s scanner (counts
every bracket character, including any inside string literals - a documented
fragility of the source). -/
def bracketDelta (l : List Char) : Int :=
  l.foldl
    (fun d c =>
      if c = '[' || c = '{' then d + 1
      else if c = ']' || c = '}' then d - 1
      else d)
    0

/-- The line scanner of `runCommand` (generate-live-data.js lines 22-43):
start accumulating at the first line whose trimmed form begins with `[` or
`{`, append each full line plus a newline, track bracket depth, and stop
(`done = true`) once depth returns to zero with non-blank accumulated text. -/
def scanLines : Bool → Int → List Char → List (List Char) → List Char × Bool
  | _, _, acc, [] => (acc, false)
  | inJson, depth, acc, line :: rest =>
    let t := trimList line
    let inJson1 := inJson || (match t with
      | c :: _ => c = '[' || c = '{'
      | [] => false)
    if inJson1 then
      let acc1 := acc ++ line ++ ['\n']
      let depth1 := depth + bracketDelta line
      if depth1 = 0 ∧ trimList acc1 ≠ [] then (acc1, true)
      else scanLines inJson1 depth1 acc1 rest
    else scanLines inJson1 depth acc rest

/-- `runCommand`'s JSON extraction applied to an already-split line list. -/
def runCommandOnLines (lines : List (List Char)) : Option Json :=
  let r := scanLines false 0 [] lines
  if trimList r.1 = [] then none else jsonParse (String.mk r.1)

/-- Model of `runCommand` (generate-live-data.js lines 16-55): trim the whole
output, split at newlines, run the depth scanner, and parse the accumulated
substring; `null` when nothing was accumulated or the parse fails. -/
def runCommand_model (output : String) : Option Json :=
  runCommandOnLines (splitOnChar '\n' (trimList output.data))

/-! ## Agent reconciliation (`fetchAgentData`, route.ts lines 135-311)

`OpenClawAgent` and `OpenClawSession` mirror the TypeScript types of the same
names; an agent record is the element shape of the reconciled output. -/

structure OpenClawAgent where
  id : Option String
  identityName : Option String
  model : Option String
deriving DecidableEq

structure OpenClawSession where
  key : Option String
  totalTokens : Option Int
  outputTokens : Option Int
  model : Option String
deriving DecidableEq

structure AgentTask where
  title : String
  source : String
deriving DecidableEq

/-- One reconciled agent record.  `cost` is in fixed-point units of 10^-4
dollars (see the file header). -/
structure AgentRecord where
  name : String
  state : String
  sessions : Nat
  tokens : Int
  cost : Int
  model : String
  tasks : List AgentTask
deriving DecidableEq

/-- `Number((tokens * 0.0000263).toFixed(4))` in units of 10^-4: multiply by
the rate 263/10^7, keep four decimals with round-half-up.  Exact for the
non-negative token counts the dashboard handles. -/
def costE4 (tokens : Int) : Int := (tokens * 263 + 500).ediv 1000

/-- Token count of one session:
`typeof s.totalTokens === "number" ? s.totalTokens : s.outputTokens ?? 0`. -/
def sessionTokens (s : OpenClawSession) : Int :=
  match s.totalTokens with
  | some n => n
  | none => s.outputTokens.getD 0

/-- The session-key lead `agent:<id>:` claimed by a primary agent
(`agent.id || ""` in the source). -/
def agentKeyStart (a : OpenClawAgent) : String :=
  "agent:" ++ jsOr a.id "" ++ ":"

/-- A session is claimed by a primary agent when its key is a string starting
with `agent:<id>:`. -/
def primaryMatches (a : OpenClawAgent) (s : OpenClawSession) : Bool :=
  match s.key with
  | some k => strStarts (agentKeyStart a).data k.data
  | none => false

/-- The per-agent record built in the `agentsArray.map` of `fetchAgentData`
(route.ts lines 153-171). -/
def primaryRecord (sessions : List OpenClawSession) (a : OpenClawAgent) : AgentRecord :=
  let agentSessions := sessions.filter (primaryMatches a)
  let tokens := agentSessions.foldl (fun total s => total + sessionTokens s) 0
  { name := jsOr a.identityName (jsOr a.id "Unknown")
  , state := if agentSessions.length > 0 then "Active" else "Idle"
  , sessions := agentSessions.length
  , tokens := tokens
  , cost := costE4 tokens
  , model := jsOr a.model "anthropic/claude-haiku-4-5"
  , tasks := [] }

/-- Character class `[a-f0-9-]` of the secondary-identity pattern. -/
def isUuidChar (c : Char) : Bool :=
  ('a' ≤ c && c ≤ 'f') || c.isDigit || c = '-'

/-- Model of `key.match(/^agent:main:subagent:([a-f0-9-]+)/)`: the maximal
non-empty run of `[a-f0-9-]` characters directly after the fixed lead. -/
def subagentMatch (k : String) : Option String :=
  let lead := ("agent:main:subagent:" : String).data
  if strStarts lead k.data then
    let uuid := (k.data.drop lead.length).takeWhile isUuidChar
    if uuid = [] then none else some (String.mk uuid)
  else none

/-- Aggregated usage of one discovered secondary identity. -/
structure SubData where
  model : String
  sessions : Nat
  tokens : Int
deriving DecidableEq

/-- Insert-or-update of the discovery map (JS `Map` keeps insertion order;
new identifiers are appended, existing ones are updated in place, keeping the
first session's model). -/
def insertGroup : List (String × SubData) → String → OpenClawSession → List (String × SubData)
  | [], id, s =>
    [(id, { model := jsOr s.model "anthropic/claude-haiku-4-5"
          , sessions := 1
          , tokens := sessionTokens s })]
  | (k, d) :: rest, id, s =>
    if k = id then
      (k, { d with sessions := d.sessions + 1, tokens := d.tokens + sessionTokens s }) :: rest
    else (k, d) :: insertGroup rest id s

/-- One iteration of the session scan (route.ts lines 185-209): keys matching
the secondary pattern are grouped by extracted identifier. -/
def groupStep (m : List (String × SubData)) (s : OpenClawSession) : List (String × SubData) :=
  match subagentMatch (jsOr s.key "") with
  | some id => insertGroup m id s
  | none => m

/-- The discovery map over a whole session list, in first-seen order. -/
def groupSubagents (sessions : List OpenClawSession) : List (String × SubData) :=
  sessions.foldl groupStep []

/-- Title-casing of a defined sub-agent folder name: split at hyphens,
capitalise each word's first character, join with spaces. -/
def titleCase (folder : String) : String :=
  String.intercalate " "
    ((folder.splitOn "-").map (fun w =>
      match w.data with
      | [] => ""
      | c :: rest => String.mk (c.toUpper :: rest)))

/-- The label of the `j`-th discovered secondary group: the `j`-th known
identity name title-cased while they last, then a generic ordinal label. -/
def subLabel (defined : List String) (j : Nat) : String :=
  if j < defined.length then titleCase (defined.getD j "")
  else "Sub-agent " ++ toString (j + 1)

/-- Record for a discovered (hence Active) secondary identity. -/
def mkActiveSub (nm : String) (d : SubData) : AgentRecord :=
  { name := nm, state := "Active", sessions := d.sessions, tokens := d.tokens
  , cost := costE4 d.tokens, model := d.model, tasks := [] }

/-- Idle zero-usage record for a known identity with no discovered group. -/
def mkIdleSub (nm : String) : AgentRecord :=
  { name := nm, state := "Idle", sessions := 0, tokens := 0, cost := 0
  , model := "anthropic/claude-haiku-4-5", tasks := [] }

/-- The secondary-record builder (route.ts lines 213-263): discovered groups
in discovery order get the next identity label (or a generic one past the end
of the list), then every remaining known identity is emitted Idle. -/
def subagentRecords (defined : List String) : Nat → List (String × SubData) → List AgentRecord
  | i, [] => (defined.drop i).map (fun folder => mkIdleSub (titleCase folder))
  | i, (_, d) :: rest => mkActiveSub (subLabel defined i) d :: subagentRecords defined (i + 1) rest

/-- The full reconciliation: primary records followed by secondary records. -/
def reconcileAgents (agents : List OpenClawAgent) (sessions : List OpenClawSession)
    (defined : List String) : List AgentRecord :=
  agents.map (primaryRecord sessions) ++ subagentRecords defined 0 (groupSubagents sessions)

/-- `fetchAgentData` after payload extraction: `null` when the agents payload
is missing or its array is empty; a missing sessions payload degrades to an
empty session list. -/
def fetchAgentData_model (agentsJson : Option (List OpenClawAgent))
    (sessionsJson : Option (List OpenClawSession)) (defined : List String) :
    Option (List AgentRecord) :=
  match agentsJson with
  | none => none
  | some arr =>
    if arr.isEmpty then none
    else some (reconcileAgents arr (sessionsJson.getD []) defined)

/-- Spec-side definition, taken from the claim's words: a session is matched
when its key starts with some agent's `agent:<id>:` lead or matches the
secondary pattern `agent:main:subagent:<uuid>`. -/
def matchedByEitherRule (agents : List OpenClawAgent) (s : OpenClawSession) : Bool :=
  agents.any (fun a => primaryMatches a s) || (subagentMatch (jsOr s.key "")).isSome

/-! ## Cron status (`fetchCronStatus` and `formatTimestamp`, route.ts lines 496-528, 757-765) -/

/-- A loosely-typed JavaScript timestamp value as it reaches
`formatTimestamp`: a (non-NaN) number, NaN, or a string; `undefined` is the
`none` of the surrounding `Option`. -/
inductive TSVal where
  | num (n : Int) : TSVal
  | nan : TSVal
  | str (s : String) : TSVal
deriving DecidableEq

/-- Left-pad with zeros to `n` characters. -/
def padZeros (n : Nat) (s : String) : String :=
  String.mk (List.replicate (n - s.length) '0') ++ s

/-- Proleptic-Gregorian date for a day count since 1970-01-01 (the classic
era-based civil-from-days computation `Date` uses). -/
def civilFromDays (z0 : Int) : Int × Nat × Nat :=
  let z := z0 + 719468
  let era : Int := z.ediv 146097
  let doe : Nat := (z - era * 146097).toNat
  let yoe : Nat := (doe - doe / 1460 + doe / 36524 - doe / 146096) / 365
  let y : Int := (yoe : Int) + era * 400
  let doy : Nat := doe - (365 * yoe + yoe / 4 - yoe / 100)
  let mp : Nat := (5 * doy + 2) / 153
  let d : Nat := doy - (153 * mp + 2) / 5 + 1
  let m : Nat := if mp < 10 then mp + 3 else mp - 9
  (if m ≤ 2 then y + 1 else y, m, d)

/-- Model of `new Date(ms).toISOString()` for epoch milliseconds in the
four-digit-year range the dashboard handles. -/
def toISOString (ms : Int) : String :=
  let days := ms.ediv 86400000
  let msod := (ms.emod 86400000).toNat
  match civilFromDays days with
  | (y, m, d) =>
    padZeros 4 (toString y.toNat) ++ "-" ++ padZeros 2 (toString m) ++ "-" ++
      padZeros 2 (toString d) ++ "T" ++ padZeros 2 (toString (msod / 3600000)) ++ ":" ++
      padZeros 2 (toString (msod % 3600000 / 60000)) ++ ":" ++
      padZeros 2 (toString (msod % 60000 / 1000)) ++ "." ++
      padZeros 3 (toString (msod % 1000)) ++ "Z"

/-- Model of `formatTimestamp` (route.ts lines 757-765): a non-NaN number
becomes an ISO string, a string whose trim is truthy passes through
unchanged, everything else is the sentinel. -/
def formatTimestamp : Option TSVal → String
  | some (TSVal.num n) => toISOString n
  | some TSVal.nan => "Unknown"
  | some (TSVal.str s) => if trimList s.data = [] then "Unknown" else s
  | none => "Unknown"

structure OpenClawJobPayload where
  name : Option String
  text : Option String
deriving DecidableEq

structure OpenClawJobState where
  lastStatus : Option String
  status : Option String
  nextRunAtMs : Option Int
  next_run : Option TSVal
  lastRunAtMs : Option Int
  last_run : Option TSVal
  lastRun : Option TSVal
deriving DecidableEq

structure OpenClawJob where
  id : Option String
  name : Option String
  payload : Option OpenClawJobPayload
  state : Option OpenClawJobState
deriving DecidableEq

structure CronRecord where
  name : String
  status : String
  nextRun : String
  lastRun : String
deriving DecidableEq

structure CronsSection where
  status : String
  jobs : List CronRecord
deriving DecidableEq

/-- The empty object substituted by `job.state ?? {}`. -/
def emptyJobState : OpenClawJobState :=
  { lastStatus := none, status := none, nextRunAtMs := none, next_run := none
  , lastRunAtMs := none, last_run := none, lastRun := none }

/-- The per-job mapping of `fetchCronStatus` (route.ts lines 511-524),
including the legacy field-name fallbacks (`||` for strings, `??` for
timestamps). -/
def mapJob (job : OpenClawJob) : CronRecord :=
  let st := job.state.getD emptyJobState
  { name := jsOr job.name (jsOr (job.payload.bind (fun p => p.name))
      (jsOr (job.payload.bind (fun p => p.text)) (jsOr job.id "Unnamed cron")))
  , status := jsOr st.lastStatus (jsOr st.status "unknown")
  , nextRun := formatTimestamp ((st.nextRunAtMs.map TSVal.num) <|> st.next_run)
  , lastRun := formatTimestamp ((st.lastRunAtMs.map TSVal.num) <|> st.last_run <|> st.lastRun) }

/-- `fetchCronStatus` after payload extraction: `null` when the CLI call or
parse failed or the job list is empty. -/
def fetchCronStatus_model (cronJson : Option (List OpenClawJob)) : Option CronsSection :=
  match cronJson with
  | none => none
  | some jobs => if jobs.isEmpty then none else some { status := "available", jobs := jobs.map mapJob }

/-! ## Record-window parser (`parseB2LHorses`, route.ts lines 693-755)

The regular expressions of the source are modelled as explicit character-list
matchers with the engine's backtracking behaviour spelt out (lazy `(.+?)`
becomes a shortest-split search; greedy `\s+` before a non-whitespace literal
needs no backtracking). -/

structure Horse where
  name : String
  race : String
  value : String
  note : String
  date : Option String
deriving DecidableEq

/-- The hardcoded report window (`todayDate` in the source). -/
def todayDate : String := "2026-02-10"

/-- Ten characters of the shape `\d{4}-\d{2}-\d{2}`. -/
def validDate (l : List Char) : Bool :=
  match l with
  | [a, b, c, d, '-', e, f, '-', g, h] =>
    a.isDigit && b.isDigit && c.isDigit && d.isDigit && e.isDigit && f.isDigit &&
      g.isDigit && h.isDigit
  | _ => false

/-- Model of `rawLine.match(/^##\s+(\d{4}-\d{2}-\d{2})/)`, returning the
captured date. -/
def dateHeadingMatch (raw : List Char) : Option (List Char) :=
  match raw with
  | '#' :: '#' :: rest =>
    if rest.takeWhile jsWs = [] then none
    else
      let after := rest.dropWhile jsWs
      if validDate (after.take 10) then some (after.take 10) else none
  | _ => none

/-- The en/em-dash normalisation `rawLine.replace(/[–—]/g, "-")`. -/
def normalizeLine (l : List Char) : List Char :=
  l.map (fun c => if c = '–' ∨ c = '—' then '-' else c)

/-- The suffix of the entry pattern after the lazy group: `\*\*\s+-\s+\*`
followed by the italic capture `([^*]+)` and its closing `*`.  Returns the
italic capture and the remaining input. -/
def entryTail (rest : List Char) : Option (List Char × List Char) :=
  match rest with
  | '*' :: '*' :: r1 =>
    if r1.takeWhile jsWs = [] then none
    else
      match r1.dropWhile jsWs with
      | '-' :: r3 =>
        if r3.takeWhile jsWs = [] then none
        else
          match r3.dropWhile jsWs with
          | '*' :: r5 =>
            let g2 := r5.takeWhile (fun c => c ≠ '*')
            if g2 = [] then none
            else
              match r5.dropWhile (fun c => c ≠ '*') with
              | '*' :: rem => some (g2, rem)
              | _ => none
          | _ => none
      | _ => none
  | _ => none

/-- The lazy `(.+?)` search: the shortest non-empty split of the input whose
remainder satisfies `entryTail`. -/
def findG1 (g1 : List Char) : List Char → Option (List Char × List Char × List Char)
  | [] => none
  | c :: rest =>
    match entryTail rest with
    | some (g2, rem) => some (g1 ++ [c], g2, rem)
    | none => findG1 (g1 ++ [c]) rest

/-- Model of the entry-line pattern
`/^- \*\*(.+?)\*\*\s+-\s+\*([^*]+)\*\s*[:\-–]*\s*(.*)$/` on a normalised
line, returning (bold capture, italic capture, trailing text). -/
def entryMatch (s : List Char) : Option (List Char × List Char × List Char) :=
  match s with
  | '-' :: ' ' :: '*' :: '*' :: tail =>
    match findG1 [] tail with
    | some (g1, g2, rem) =>
      let r1 := rem.dropWhile jsWs
      let r2 := r1.dropWhile (fun c => c = ':' || c = '-' || c = '–')
      some (g1, g2, r2.dropWhile jsWs)
    | none => none
  | _ => none

/-- Model of `race.match(/^(\d{4}-\d{2}-\d{2})\s+(.+)$/)`: the leading date
and the (non-empty, possibly whitespace) remainder after at least one
whitespace character, with the engine giving one whitespace character back
when everything after the date is whitespace. -/
def raceDateMatch (race : List Char) : Option (List Char × List Char) :=
  if validDate (race.take 10) then
    let after := race.drop 10
    let w := (after.takeWhile jsWs).length
    if w = 0 then none
    else if w < after.length then some (race.take 10, after.drop w)
    else if 2 ≤ w then some (race.take 10, after.drop (w - 1))
    else none
  else none

/-- Case-insensitive literal match; returns the remaining input. -/
def ciStrip : List Char → List Char → Option (List Char)
  | [], s => some s
  | _ :: _, [] => none
  | p :: ps, c :: cs => if c.toLower = p then ciStrip ps cs else none

/-- The number-or-`n/a` capture `([0-9]+(?:\.[0-9]+)?|n\/a)` (the `n/a`
branch is case-insensitive and returns the matched text as written). -/
def numOrNa (cs : List Char) : Option (List Char) :=
  let ds := cs.takeWhile Char.isDigit
  if ds ≠ [] then
    match cs.drop ds.length with
    | '.' :: r2 =>
      let fs := r2.takeWhile Char.isDigit
      if fs = [] then some ds else some (ds ++ '.' :: fs)
    | _ => some ds
  else
    match ciStrip ("n/a" : String).data cs with
    | some _ => some (cs.take 3)
    | none => none

/-- Attempt of `/priced(?:\s+at)?\s+(...)/i` anchored at the current
position: after `priced`, first try the optional `\s+at` group, then fall
back to plain `\s+` before the capture. -/
def pricedAt (cs : List Char) : Option (List Char) :=
  match ciStrip ("priced" : String).data cs with
  | none => none
  | some r =>
    let viaAt : Option (List Char) :=
      if r.takeWhile jsWs = [] then none
      else
        match ciStrip ("at" : String).data (r.dropWhile jsWs) with
        | none => none
        | some r3 =>
          if r3.takeWhile jsWs = [] then none
          else numOrNa (r3.dropWhile jsWs)
    match viaAt with
    | some v => some v
    | none =>
      if r.takeWhile jsWs = [] then none
      else numOrNa (r.dropWhile jsWs)

/-- Unanchored search for the `priced` pattern, left to right. -/
def valueSearch : List Char → Option (List Char)
  | [] => none
  | c :: rest =>
    match pricedAt (c :: rest) with
    | some v => some v
    | none => valueSearch rest

/-- A `(\d{2}):(\d{2})` match anchored at the current position. -/
def timeAt : List Char → Option (List Char)
  | a :: b :: c :: d :: e :: _ =>
    if a.isDigit && b.isDigit && c = ':' && d.isDigit && e.isDigit then
      some [a, b, c, d, e]
    else none
  | _ => none

/-- Unanchored search for `(\d{2}):(\d{2})`, left to right. -/
def timeSearch : List Char → Option (List Char)
  | [] => none
  | c :: rest =>
    match timeAt (c :: rest) with
    | some t => some t
    | none => timeSearch rest

/-- The sort key `a.race.match(/(\d{2}):(\d{2})/)?.[0] || "00:00"`. -/
def timeKey (race : String) : String :=
  ((timeSearch race.data).map String.mk).getD "00:00"

/-- Stable descending insertion by time key, matching the stable JS `sort`
with comparator `timeB.localeCompare(timeA)` (lexicographic on these
digit/colon strings). -/
def insertByTime (r : Horse) : List Horse → List Horse
  | [] => [r]
  | x :: xs => if timeKey x.race < timeKey r.race then r :: x :: xs else x :: insertByTime r xs

/-- Stable sort of the horse list, descending by time key. -/
def sortByTimeDesc : List Horse → List Horse
  | [] => []
  | x :: xs => insertByTime x (sortByTimeDesc xs)

/-- The effective date and race text of one entry (the inline date of the
bold field, when present, overrides the heading date and is stripped). -/
def entryDateAndRace (cur : String) (race0 : List Char) : String × List Char :=
  match raceDateMatch race0 with
  | some (d, r) => (String.mk d, r)
  | none => (cur, race0)

/-- The dedup key `${name.trim()}|${race.trim()}|${entryDate}`. -/
def entryKey (nameC race : List Char) (ed : String) : String :=
  String.mk (trimList nameC ++ '|' :: (trimList race ++ '|' :: ed.data))

/-- The output race label
`` `${entryDate ? `${entryDate} ` : ""}${race.trim()}`.trim() ``. -/
def raceLabelC (ed : String) (race : List Char) : List Char :=
  trimList ((if ed ≠ "" then ed.data ++ [' '] else []) ++ trimList race)

/-- The record pushed for one surviving entry. -/
def mkHorse (nameC race restC : List Char) (ed : String) : Horse :=
  { name := String.mk (trimList nameC)
  , race := String.mk (raceLabelC ed race)
  , value := ((valueSearch restC).map String.mk).getD "n/a"
  , note := String.mk (trimList restC)
  , date := if ed = "" then none else some ed }

/-- The line loop of `parseB2LHorses`: track the current heading date, match
entry lines, apply the inline-date override, the target-date filter, the
first-wins dedup (note the key is recorded before the blank-name check, as in
the source), and accumulate records in order. -/
def b2lLoop : String → List String → List Horse → List (List Char) → List Horse
  | _, _, acc, [] => acc
  | cur, seen, acc, line :: rest =>
    match dateHeadingMatch line with
    | some d => b2lLoop (String.mk d) seen acc rest
    | none =>
      match entryMatch (normalizeLine line) with
      | none => b2lLoop cur seen acc rest
      | some (race0, nameC, restC) =>
        let ed := entryDateAndRace cur race0
        if ed.1 ≠ todayDate then b2lLoop cur seen acc rest
        else
          let key := entryKey nameC ed.2 ed.1
          if key ∈ seen then b2lLoop cur seen acc rest
          else if trimList nameC = [] then b2lLoop cur (key :: seen) acc rest
          else b2lLoop cur (key :: seen) (acc ++ [mkHorse nameC ed.2 restC ed.1]) rest

/-- Model of `parseB2LHorses`: split into lines, run the loop, sort by time
key descending, truncate to the fixed maximum of two records. -/
def parseB2LHorses (content : String) : List Horse :=
  (sortByTimeDesc (b2lLoop "" [] [] (splitLines content.data))).take 2

/-! ## Trading section (`fetchB2LData`, route.ts lines 530-606) -/

structure QualifiedHorse where
  name : String
  race : String
  value : String
  note : String
deriving DecidableEq

structure TradingStatus where
  dailyStatus : String
  statusNote : String
  completionStatus : String
deriving DecidableEq

structure TradingStats where
  matchedRaces : Nat
  unmatched : Nat
  profit : Nat
  liability : Nat
deriving DecidableEq

structure PipelineStage where
  name : String
  label : String
  completed : Bool
  note : String
deriving DecidableEq

structure TradingSection where
  availability : String
  status : TradingStatus
  qualifiedHorses : List QualifiedHorse
  tradingStats : TradingStats
  pipelineStages : List PipelineStage
deriving DecidableEq

/-- The trading object literal assembled by `fetchB2LData` from the qualified
shortlist (`Math.max(0, 10 - n)` is Nat subtraction). -/
def buildTrading (qualified : List QualifiedHorse) : TradingSection :=
  { availability := if qualified.length > 0 then "available" else "unavailable"
  , status :=
    { dailyStatus :=
        if qualified.length > 4 then "Green"
        else if qualified.length > 0 then "Amber" else "Red"
    , statusNote :=
        if qualified.length > 0 then
          toString qualified.length ++ " horses extracted from B2L file"
        else "Waiting for the Back-to-Lay pipeline to output qualified runners"
    , completionStatus :=
        if qualified.length > 0 then "On track for processing" else "Awaiting shortlist" }
  , qualifiedHorses := qualified
  , tradingStats :=
    { matchedRaces := qualified.length
    , unmatched := 10 - qualified.length
    , profit := 0
    , liability := 0 }
  , pipelineStages :=
    [ { name := "Racecard", label := "Racecard imported from Betfair Guru"
      , completed := true, note := "CSV downloaded" }
    , { name := "Analysis", label := "Winning Warlock analysis (75%+ shortlist)"
      , completed := true, note := "Shortlist reviewed" }
    , { name := "Bias", label := "Draw bias captured"
      , completed := true, note := "Draw & pace metrics recorded" }
    , { name := "Sheet", label := "Qualified horses appended to ClawdBotB2L sheet"
      , completed := qualified.length > 0
      , note :=
          if qualified.length > 0 then "✓ " ++ toString qualified.length ++ " appended"
          else "⏳ waiting for horses" } ] }

/-- Filesystem outcome of the report-file adapter: the file is missing, the
read threw, or it yielded text. -/
inductive B2LOutcome where
  | missing : B2LOutcome
  | readError : B2LOutcome
  | content (text : String) : B2LOutcome

/-- Model of `fetchB2LData`: `null` when the file is missing or the read
throws; otherwise the trading object built from the first six parsed
records. -/
def fetchB2LData_model : B2LOutcome → Option TradingSection
  | B2LOutcome.missing => none
  | B2LOutcome.readError => none
  | B2LOutcome.content text =>
    let horses := parseB2LHorses text
    some (buildTrading ((horses.take 6).map (fun h =>
      { name := h.name, race := h.race, value := h.value, note := h.note })))

/-! ## GitHub projects (`fetchGitHubProjects`, route.ts lines 313-494) -/

structure ActiveProject where
  name : String
  status : String
  owner : String
deriving DecidableEq

structure RecentActivity where
  type : String
  label : String
  detail : String
  timestamp : String
  source : String
deriving DecidableEq

structure ProjectsSection where
  status : String
  active : List ActiveProject
  recentActivity : List RecentActivity
  activityLog : List String
deriving DecidableEq

structure GhContent where
  number : Option Int
  title : Option String
  repoNameWithOwner : Option String
  updatedAt : Option String
deriving DecidableEq

structure GhItem where
  statusName : Option String
  content : Option GhContent
deriving DecidableEq

/-- Outcome of the GraphQL round trip.  `exception` covers the thrown paths
(network error, timeout) that land in the `catch`. -/
inductive GhOutcome where
  | noToken : GhOutcome
  | httpError (status : Nat) (body : String) : GhOutcome
  | gqlErrors (msgs : List String) : GhOutcome
  | noProject : GhOutcome
  | exception (msg : String) : GhOutcome
  | items (l : List GhItem) : GhOutcome

/-- The sentinel `{status: "unavailable", active: [], recentActivity: [],
activityLog: []}` the source returns on every failure path. -/
def ghUnavailable : ProjectsSection :=
  { status := "unavailable", active := [], recentActivity := [], activityLog := [] }

/-- One flattened in-progress row (`item.number` may be the string `"?"`). -/
structure GhRow where
  numberStr : String
  title : String
  repo : String
  updatedAt : String
deriving DecidableEq

/-- Row construction: `content?.number || "?"` (0 is falsy), `content?.title
|| "Untitled"`, repository short name via `split("/")[1] || "unknown"`, and
`content?.updatedAt || now`. -/
def mkGhRow (now : String) (it : GhItem) : GhRow :=
  { numberStr :=
      match it.content.bind (fun c => c.number) with
      | some n => if n = 0 then "?" else toString n
      | none => "?"
  , title := jsOr (it.content.bind (fun c => c.title)) "Untitled"
  , repo :=
      match it.content.bind (fun c => c.repoNameWithOwner) with
      | some s => jsOr ((s.splitOn "/")[1]?) "unknown"
      | none => "unknown"
  , updatedAt := jsOr (it.content.bind (fun c => c.updatedAt)) now }

/-- The display label `${repo} #${number}: ${title}`. -/
def ghLabel (r : GhRow) : String :=
  r.repo ++ " #" ++ r.numberStr ++ ": " ++ r.title

/-- Model of `fetchGitHubProjects`.  The TypeScript signature admits `null`,
but every failure path returns the `unavailable` sentinel instead; `now`
stands for `new Date().toISOString()`. -/
def fetchGitHubProjects_model (now : String) : GhOutcome → Option ProjectsSection
  | GhOutcome.noToken => some ghUnavailable
  | GhOutcome.httpError _ _ => some ghUnavailable
  | GhOutcome.gqlErrors _ => some ghUnavailable
  | GhOutcome.noProject => some ghUnavailable
  | GhOutcome.exception _ => some ghUnavailable
  | GhOutcome.items l =>
    let inProgress := l.filter (fun it =>
      let s := (jsOr it.statusName "").toLower
      s = "in progress" || s = "in_progress")
    let rows := inProgress.map (mkGhRow now)
    if rows.length = 0 then
      some { status := "available", active := [], recentActivity := [], activityLog := [] }
    else
      some
        { status := "available"
        , active := rows.map (fun r => { name := ghLabel r, status := "In Progress", owner := "GitHub" })
        , recentActivity := rows.map (fun r =>
            { type := "github", label := ghLabel r, detail := "In Progress"
            , timestamp := r.updatedAt, source := "Clawd Tasks Board" })
        , activityLog := rows.map ghLabel }

/-! ## Snapshot assembly (`buildLiveData` and `GET`, route.ts lines 66-133)

The snapshot's remaining sections (calendar, content, file-activity and so
on) are never touched by the merge and are modelled opaquely as
`otherSections`. -/

structure DashboardData where
  agents : List AgentRecord
  projects : ProjectsSection
  crons : CronsSection
  trading : TradingSection
  otherSections : List (String × String)
deriving DecidableEq

/-- The replace-if-present merge of `buildLiveData` (route.ts lines 101-132):
agents, projects and crons replace the baseline only when non-null and their
respective list is non-empty; trading replaces whenever non-null. -/
def mergeSnapshot (baseline : DashboardData) (agents : Option (List AgentRecord))
    (projects : Option ProjectsSection) (crons : Option CronsSection)
    (trading : Option TradingSection) : DashboardData :=
  { baseline with
    agents :=
      match agents with
      | some l => if l.length > 0 then l else baseline.agents
      | none => baseline.agents
    projects :=
      match projects with
      | some p => if p.active.length > 0 then p else baseline.projects
      | none => baseline.projects
    crons :=
      match crons with
      | some c => if c.jobs.length > 0 then c else baseline.crons
      | none => baseline.crons
    trading :=
      match trading with
      | some t => t
      | none => baseline.trading }

/-- Model of the `GET` handler (route.ts lines 66-77): a successful build
returns the merged snapshot with status 200; a thrown error returns the
unmodified baseline placeholder, still with status 200. -/
def GET_model (baseline : DashboardData)
    (outcome : Except String (Option (List AgentRecord) × Option ProjectsSection ×
      Option CronsSection × Option TradingSection)) : Nat × DashboardData :=
  match outcome with
  | Except.ok (a, p, c, t) => (200, mergeSnapshot baseline a p c t)
  | Except.error _ => (200, baseline)

/-! ## Spec-side helper definitions used by the theorems -/

/-- Total tokens recorded in the secondary discovery map. -/
def groupTokens (m : List (String × SubData)) : Int :=
  (m.map (fun p => p.2.tokens)).sum

/-- The shape of every output race label of the record-window parser: the
target date alone when the stripped race text is blank, otherwise the target
date, a space, and the stripped race text. -/
def labelOf (rt : List Char) : List Char :=
  if rt = [] then todayDate.data else todayDate.data ++ ' ' :: rt

/-- Two horse records differ on the composite (name, race, date) key. -/
def tripleDistinct (a b : Horse) : Prop :=
  ¬(a.name = b.name ∧ a.race = b.race ∧ a.date = b.date)

/-- Invariant carried by the record-window parser's loop: every accumulated
record was produced from some right-trimmed race text `rt`, carries the
target date, and its dedup key has been recorded in `seen`. -/
def goodRecord (seen : List String) (r : Horse) : Prop :=
  ∃ rt, rtrimL rt = rt ∧ r.race = String.mk (labelOf rt) ∧ r.date = some todayDate ∧
    String.mk (r.name.data ++ '|' :: (rt ++ '|' :: todayDate.data)) ∈ seen

/-- Concrete baseline snapshot used by the merge-policy counterexample. -/
def cexBaseline : DashboardData :=
  { agents := [mkIdleSub "Placeholder"]
  , projects := ghUnavailable
  , crons := { status := "placeholder", jobs := [] }
  , trading := buildTrading [{ name := "A", race := "R", value := "2.0", note := "n" }]
  , otherSections := [("calendar", "placeholder")] }

/-! ## Helper lemmas -/

theorem foldl_add_map (f : OpenClawSession → Int) (l : List OpenClawSession) :
    ∀ c : Int, l.foldl (fun t s => t + f s) c = c + (l.map f).sum := by
  induction l with
  | nil => simp
  | cons x xs ih => intro c; simp only [List.foldl_cons, List.map_cons, List.sum_cons, ih]; ring

theorem sum_map_zero {α : Type} (l : List α) : (l.map (fun _ => (0 : Int))).sum = 0 := by
  induction l with
  | nil => simp
  | cons x xs ih => simp [ih]

theorem insertGroup_tokens (id : String) (s : OpenClawSession) :
    ∀ m, groupTokens (insertGroup m id s) = groupTokens m + sessionTokens s := by
  intro m
  induction m with
  | nil => simp [insertGroup, groupTokens]
  | cons p rest ih =>
    match p with
    | (k, d) =>
      by_cases h : k = id
      · simp [insertGroup, h, groupTokens]; ring
      · simp only [insertGroup, if_neg h, groupTokens, List.map_cons, List.sum_cons] at *
        rw [ih]; ring

theorem groupStep_tokens (m : List (String × SubData)) (s : OpenClawSession) :
    groupTokens (groupStep m s)
      = groupTokens m + (if (subagentMatch (jsOr s.key "")).isSome then sessionTokens s else 0) := by
  unfold groupStep
  cases h : subagentMatch (jsOr s.key "") with
  | none => simp [h]
  | some id => simp [h, insertGroup_tokens]

theorem foldl_groupStep (ss : List OpenClawSession) :
    ∀ m, groupTokens (ss.foldl groupStep m)
      = groupTokens m
        + ((ss.filter (fun s => (subagentMatch (jsOr s.key "")).isSome)).map sessionTokens).sum := by
  induction ss with
  | nil => simp
  | cons s ss ih =>
    intro m
    simp only [List.foldl_cons, ih (groupStep m s), groupStep_tokens]
    by_cases h : (subagentMatch (jsOr s.key "")).isSome
    · simp [h]; ring
    · simp [h]

theorem subagentRecords_tokens (defined : List String) :
    ∀ (g : List (String × SubData)) (i : Nat),
      ((subagentRecords defined i g).map (fun r => r.tokens)).sum = groupTokens g := by
  intro g
  induction g with
  | nil =>
    intro i
    have h0 : ∀ (l : List String),
        (l.map (fun folder => (mkIdleSub (titleCase folder)).tokens)).sum = 0 := by
      intro l
      induction l with
      | nil => simp
      | cons a t ih => simp [mkIdleSub, ih]
    simpa [subagentRecords, groupTokens, List.map_map, Function.comp] using h0 (defined.drop i)
  | cons p rest ih =>
    intro i
    match p with
    | (u, d) => simp [subagentRecords, mkActiveSub, groupTokens, ih (i + 1)]

theorem subagentRecords_length (defined : List String) :
    ∀ (g : List (String × SubData)) (i : Nat),
      (subagentRecords defined i g).length = g.length + (defined.length - (i + g.length)) := by
  intro g
  induction g with
  | nil => intro i; simp [subagentRecords]
  | cons p rest ih =>
    intro i
    match p with
    | (u, d) =>
      simp only [subagentRecords, List.length_cons, ih (i + 1)]
      omega

theorem drop_getElem? {α : Type} : ∀ (l : List α) (i j : Nat), (l.drop i)[j]? = l[i + j]? := by
  intro l
  induction l with
  | nil => intro i j; simp
  | cons a t ih =>
    intro i j
    cases i with
    | zero => simp
    | succ i =>
      have : i + 1 + j = (i + j) + 1 := by omega
      rw [List.drop_succ_cons, ih i j, this, List.getElem?_cons_succ]

theorem subagentRecords_get_active (defined : List String) :
    ∀ (g : List (String × SubData)) (i j : Nat) (u : String) (d : SubData),
      g[j]? = some (u, d) →
      (subagentRecords defined i g)[j]? = some (mkActiveSub (subLabel defined (i + j)) d) := by
  intro g
  induction g with
  | nil => intro i j u d h; simp at h
  | cons p rest ih =>
    intro i j u d h
    match p with
    | (u0, d0) =>
      cases j with
      | zero =>
        simp only [List.getElem?_cons_zero, Option.some_inj] at h
        have hd : d0 = d := congrArg Prod.snd h
        simp [subagentRecords, hd]
      | succ j =>
        simp only [List.getElem?_cons_succ] at h
        have : i + (j + 1) = (i + 1) + j := by omega
        rw [this]
        simpa [subagentRecords] using ih (i + 1) j u d h

theorem subagentRecords_get_idle (defined : List String) :
    ∀ (g : List (String × SubData)) (i j : Nat), g.length ≤ j →
      (subagentRecords defined i g)[j]?
        = ((defined.drop (i + g.length)).map (fun folder => mkIdleSub (titleCase folder)))[j - g.length]? := by
  intro g
  induction g with
  | nil => intro i j h; simp [subagentRecords]
  | cons p rest ih =>
    intro i j h
    match p with
    | (u0, d0) =>
      cases j with
      | zero => simp at h
      | succ j =>
        simp only [List.length_cons] at h
        have h2 : rest.length ≤ j := by omega
        have e1 : i + (rest.length + 1) = (i + 1) + rest.length := by omega
        have e2 : j + 1 - (rest.length + 1) = j - rest.length := by omega
        simp only [subagentRecords, List.getElem?_cons_succ, List.length_cons, e1, e2]
        exact ih (i + 1) j h2

theorem primaryRecord_tokens (sessions : List OpenClawSession) (a : OpenClawAgent) :
    (primaryRecord sessions a).tokens
      = ((sessions.filter (primaryMatches a)).map sessionTokens).sum := by
  show (sessions.filter (primaryMatches a)).foldl (fun t s => t + sessionTokens s) 0 = _
  rw [foldl_add_map sessionTokens]
  simp

theorem primaryRecord_state (sessions : List OpenClawSession) (a : OpenClawAgent) :
    (primaryRecord sessions a).state
      = if (sessions.filter (primaryMatches a)).length > 0 then "Active" else "Idle" := rfl

theorem primaryRecord_sessions_count (sessions : List OpenClawSession) (a : OpenClawAgent) :
    (primaryRecord sessions a).sessions = (sessions.filter (primaryMatches a)).length := rfl

/-- C1 (counterexample): with a primary agent whose id is `main` and a single
session keyed `agent:main:subagent:ab` worth 100 tokens, the session matches
both the primary-prefix rule and the secondary-pattern rule and is counted
twice: the reconciled output carries 200 tokens while the matched sessions
carry 100, so the claimed conservation equality fails. -/
theorem c1_counterexample :
    ((reconcileAgents [⟨some "main", none, none⟩]
        [⟨some "agent:main:subagent:ab", some 100, none, none⟩] []).map (fun r => r.tokens)).sum = 200
    ∧ ((([⟨some "agent:main:subagent:ab", some 100, none, none⟩] : List OpenClawSession).filter
        (matchedByEitherRule [⟨some "main", none, none⟩])).map sessionTokens).sum = 100
    ∧ ((reconcileAgents [⟨some "main", none, none⟩]
        [⟨some "agent:main:subagent:ab", some 100, none, none⟩] []).map (fun r => r.tokens)).sum
      ≠ ((([⟨some "agent:main:subagent:ab", some 100, none, none⟩] : List OpenClawSession).filter
        (matchedByEitherRule [⟨some "main", none, none⟩])).map sessionTokens).sum :=
  ⟨by decide, by decide, by decide⟩

/-- C1 (amended): token conservation holds with per-rule multiplicity - the
token sum over the reconciled output equals the sum, over all primary agents,
of the tokens of the sessions matching that agent's prefix, plus the tokens
of the sessions matching the secondary pattern.  A session matching several
rules contributes once per match (the source does not exclude
primary-claimed sessions from the secondary pass); sessions matching no rule
contribute nothing, and idle fill records contribute zero. -/
theorem c1_token_conservation_amended (agents : List OpenClawAgent)
    (sessions : List OpenClawSession) (defined : List String) :
    ((reconcileAgents agents sessions defined).map (fun r => r.tokens)).sum
      = (agents.map (fun a => ((sessions.filter (primaryMatches a)).map sessionTokens).sum)).sum
        + ((sessions.filter (fun s => (subagentMatch (jsOr s.key "")).isSome)).map sessionTokens).sum := by
  unfold reconcileAgents
  rw [List.map_append, List.sum_append]
  congr 1
  · induction agents with
    | nil => simp
    | cons a t ih => simp only [List.map_cons, List.sum_cons, ih, primaryRecord_tokens]
  · rw [subagentRecords_tokens]
    show groupTokens (sessions.foldl groupStep []) = _
    rw [foldl_groupStep]
    simp [groupTokens]

/-- C5: the secondary output contains `max N M` records - exactly `N` when
`M ≤ N` and exactly `M` when `M > N`; the `j`-th discovered group (in
discovery order) is emitted Active with the `j`-th identity label while they
last and a generic ordinal label afterwards, and every remaining identity
name is emitted as an Idle zero-usage record. -/
theorem c5_secondary_record_counts (defined : List String) (sessions : List OpenClawSession) :
    ((subagentRecords defined 0 (groupSubagents sessions)).length
        = max defined.length (groupSubagents sessions).length)
    ∧ ((groupSubagents sessions).length ≤ defined.length →
        (subagentRecords defined 0 (groupSubagents sessions)).length = defined.length)
    ∧ (defined.length < (groupSubagents sessions).length →
        (subagentRecords defined 0 (groupSubagents sessions)).length
          = (groupSubagents sessions).length)
    ∧ (∀ j u d, (groupSubagents sessions)[j]? = some (u, d) →
        (subagentRecords defined 0 (groupSubagents sessions))[j]?
          = some (mkActiveSub (subLabel defined j) d))
    ∧ (∀ j nm, (groupSubagents sessions).length ≤ j → defined[j]? = some nm →
        (subagentRecords defined 0 (groupSubagents sessions))[j]? = some (mkIdleSub (titleCase nm))) := by
  have hlen := subagentRecords_length defined (groupSubagents sessions) 0
  refine ⟨by omega, fun h => by omega, fun h => by omega, ?_, ?_⟩
  · intro j u d h
    have := subagentRecords_get_active defined (groupSubagents sessions) 0 j u d h
    simpa using this
  · intro j nm hj hnm
    rw [subagentRecords_get_idle defined (groupSubagents sessions) 0 j hj]
    rw [List.getElem?_map, drop_getElem?]
    have : 0 + (groupSubagents sessions).length + (j - (groupSubagents sessions).length) = j := by
      omega
    rw [this, hnm]
    rfl

/-- C5 (witness): with the identity list `["alpha-bot", "beta"]` and one
discovered group, the discovered-group count 1 is at most 2 and the secondary
output has exactly 2 records. -/
theorem c5_secondary_record_counts_witness :
    ((groupSubagents [⟨some "agent:main:subagent:ab", some 50, none, some "m"⟩]).length
        ≤ (["alpha-bot", "beta"] : List String).length)
    ∧ (subagentRecords ["alpha-bot", "beta"] 0
        (groupSubagents [⟨some "agent:main:subagent:ab", some 50, none, some "m"⟩])).length
      = (["alpha-bot", "beta"] : List String).length :=
  ⟨by decide,
    (c5_secondary_record_counts ["alpha-bot", "beta"]
      [⟨some "agent:main:subagent:ab", some 50, none, some "m"⟩]).2.1 (by decide)⟩

/-- C8: the reconciliation scenario - one agent `a1`/`Clawd` and one session
`agent:a1:s1` with 1000 tokens yields the single record
`{name: Clawd, state: Active, sessions: 1, tokens: 1000, cost: 0.0263}`
(cost in 10^-4 units is 263); in general a primary record is Active exactly
when its session count is positive, and its cost is the fixed-rate function
of its token count. -/
theorem c8_reconciliation_scenario :
    reconcileAgents [{ id := some "a1", identityName := some "Clawd", model := none }]
        [{ key := some "agent:a1:s1", totalTokens := some 1000, outputTokens := none, model := none }]
        []
      = [{ name := "Clawd", state := "Active", sessions := 1, tokens := 1000, cost := 263
         , model := "anthropic/claude-haiku-4-5", tasks := [] }]
    ∧ (∀ sessions a, ((primaryRecord sessions a).state = "Active")
        ↔ 0 < (primaryRecord sessions a).sessions)
    ∧ (∀ sessions a, (primaryRecord sessions a).cost = costE4 (primaryRecord sessions a).tokens) := by
  refine ⟨by decide, ?_, fun _ _ => rfl⟩
  intro sessions a
  rw [primaryRecord_state, primaryRecord_sessions_count]
  by_cases h : (sessions.filter (primaryMatches a)).length > 0
  · simp [h]
  · simp [h]

/-- C2 (counterexample): a successful-but-empty trading result (zero
qualified horses) still replaces the baseline trading section, although the
claim requires the baseline to be retained for empty results. -/
theorem c2_counterexample :
    (mergeSnapshot cexBaseline none none none (some (buildTrading []))).trading
      ≠ cexBaseline.trading
    ∧ (buildTrading []).qualifiedHorses = [] :=
  ⟨by decide, rfl⟩

/-- C2 (amended): the merge policy of `buildLiveData` - agents, projects and
crons replace their baseline section exactly when the adapter result is
non-null with a non-empty respective list, and the baseline is kept
otherwise; the trading section replaces the baseline whenever the adapter
result is non-null, even when its qualified list is empty; when all four
results are null the assembled snapshot equals the baseline exactly. -/
theorem c2_merge_policy_amended :
    (∀ B, mergeSnapshot B none none none none = B)
    ∧ (∀ B p c t l, 0 < l.length → (mergeSnapshot B (some l) p c t).agents = l)
    ∧ (∀ B p c t, (mergeSnapshot B (some []) p c t).agents = B.agents)
    ∧ (∀ B p c t, (mergeSnapshot B none p c t).agents = B.agents)
    ∧ (∀ B a c t P, 0 < P.active.length → (mergeSnapshot B a (some P) c t).projects = P)
    ∧ (∀ B a c t P, P.active = [] → (mergeSnapshot B a (some P) c t).projects = B.projects)
    ∧ (∀ B a c t, (mergeSnapshot B a none c t).projects = B.projects)
    ∧ (∀ B a p t C, 0 < C.jobs.length → (mergeSnapshot B a p (some C) t).crons = C)
    ∧ (∀ B a p t C, C.jobs = [] → (mergeSnapshot B a p (some C) t).crons = B.crons)
    ∧ (∀ B a p t, (mergeSnapshot B a p none t).crons = B.crons)
    ∧ (∀ B a p c T, (mergeSnapshot B a p c (some T)).trading = T)
    ∧ (∀ B a p c, (mergeSnapshot B a p c none).trading = B.trading) := by
  refine ⟨fun B => rfl, ?_, fun B p c t => rfl, fun B p c t => rfl, ?_, ?_,
    fun B a c t => rfl, ?_, ?_, fun B a p t => rfl, fun B a p c T => rfl, fun B a p c => rfl⟩
  · intro B p c t l h
    simp [mergeSnapshot, h]
  · intro B a c t P h
    simp [mergeSnapshot, h]
  · intro B a c t P h
    simp [mergeSnapshot, h]
  · intro B a p t C h
    simp [mergeSnapshot, h]
  · intro B a p t C h
    simp [mergeSnapshot, h]

/-- C2 (witness): a non-empty agents result replaces the baseline agents. -/
theorem c2_merge_policy_witness :
    (0 < ([mkIdleSub "X"] : List AgentRecord).length)
    ∧ (mergeSnapshot cexBaseline (some [mkIdleSub "X"]) none none none).agents = [mkIdleSub "X"] :=
  ⟨by decide, c2_merge_policy_amended.2.1 cexBaseline none none none [mkIdleSub "X"] (by decide)⟩

/-- C4 (counterexample): on a missing token the issue-tracker adapter does
not return null - it returns the `unavailable` sentinel object. -/
theorem c4_counterexample :
    fetchGitHubProjects_model "2026-01-01T00:00:00.000Z" GhOutcome.noToken = some ghUnavailable
    ∧ fetchGitHubProjects_model "2026-01-01T00:00:00.000Z" GhOutcome.noToken ≠ none :=
  ⟨rfl, by intro h; exact Option.noConfusion h⟩

/-- C4 (amended): every failure of the CLI-backed adapters (execution error,
missing JSON, parse failure, empty payload) and of the report-file reader
(missing file, read error) yields null; the issue-tracker adapter never
yields null - every failure path (missing token, HTTP error, GraphQL errors,
inaccessible project, thrown exception) yields the `unavailable` sentinel
object with empty lists, which the merge treats like absence.  None of the
adapters raises: each failure is converted to its adapter's failure value. -/
theorem c4_failure_contract_amended :
    runOpenClawJson_model CliOutcome.execError = none
    ∧ runOpenClawJson_model (CliOutcome.output "plain text") = none
    ∧ runOpenClawJson_model (CliOutcome.output "\x7boops") = none
    ∧ (∀ sess defined, fetchAgentData_model none sess defined = none)
    ∧ (∀ sess defined, fetchAgentData_model (some []) sess defined = none)
    ∧ fetchCronStatus_model none = none
    ∧ fetchCronStatus_model (some []) = none
    ∧ fetchB2LData_model B2LOutcome.missing = none
    ∧ fetchB2LData_model B2LOutcome.readError = none
    ∧ (∀ now, fetchGitHubProjects_model now GhOutcome.noToken = some ghUnavailable)
    ∧ (∀ now st body, fetchGitHubProjects_model now (GhOutcome.httpError st body) = some ghUnavailable)
    ∧ (∀ now msgs, fetchGitHubProjects_model now (GhOutcome.gqlErrors msgs) = some ghUnavailable)
    ∧ (∀ now, fetchGitHubProjects_model now GhOutcome.noProject = some ghUnavailable)
    ∧ (∀ now msg, fetchGitHubProjects_model now (GhOutcome.exception msg) = some ghUnavailable) :=
  ⟨rfl, rfl, rfl, fun _ _ => rfl, fun _ _ => rfl, rfl, rfl, rfl, rfl,
    fun _ => rfl, fun _ _ _ => rfl, fun _ _ => rfl, fun _ => rfl, fun _ _ => rfl⟩

/-- C6: the dashboard-data GET handler always answers with HTTP status 200 -
the merged snapshot on success and the unmodified baseline placeholder when
assembly throws. -/
theorem c6_get_always_200 :
    (∀ B outcome, (GET_model B outcome).1 = 200)
    ∧ (∀ B e, GET_model B (Except.error e) = (200, B))
    ∧ (∀ B a p c t, GET_model B (Except.ok (a, p, c, t)) = (200, mergeSnapshot B a p c t)) := by
  refine ⟨?_, fun B e => rfl, fun B a p c t => rfl⟩
  intro B outcome
  cases outcome with
  | ok v => obtain ⟨a, p, c, t⟩ := v; rfl
  | error e => rfl

/-- C7 (counterexample): the whitespace-only string `" "` is non-empty, yet
`formatTimestamp` yields the sentinel `"Unknown"` instead of passing it
through. -/
theorem c7_counterexample :
    (" " : String) ≠ "" ∧ formatTimestamp (some (TSVal.str " ")) = "Unknown"
    ∧ ("Unknown" : String) ≠ " " :=
  ⟨by decide, by decide, by decide⟩

/-- C7 (amended): the scenario cron job maps to
`{name: backup, status: ok, nextRun: 2023-11-14T22:13:20.000Z, lastRun: Unknown}`;
in general a (non-NaN) epoch-millis number normalizes to its ISO string, a
non-blank string (non-empty after trimming) passes through unchanged, and a
blank string, NaN or a missing value yields the sentinel `"Unknown"`. -/
theorem c7_cron_mapping_amended :
    mapJob { id := none, name := some "backup", payload := none
           , state := some { lastStatus := none, status := some "ok"
                           , nextRunAtMs := some 1700000000000, next_run := none
                           , lastRunAtMs := none, last_run := none, lastRun := none } }
      = { name := "backup", status := "ok", nextRun := "2023-11-14T22:13:20.000Z"
        , lastRun := "Unknown" }
    ∧ (∀ n, formatTimestamp (some (TSVal.num n)) = toISOString n)
    ∧ (∀ s, trimList s.data ≠ [] → formatTimestamp (some (TSVal.str s)) = s)
    ∧ (∀ s, trimList s.data = [] → formatTimestamp (some (TSVal.str s)) = "Unknown")
    ∧ formatTimestamp none = "Unknown"
    ∧ formatTimestamp (some TSVal.nan) = "Unknown" := by
  refine ⟨by decide, fun n => rfl, ?_, ?_, rfl, rfl⟩
  · intro s h
    simp [formatTimestamp, h]
  · intro s h
    simp [formatTimestamp, h]

/-- C7 (witness): the string `"x"` is non-blank and passes through. -/
theorem c7_cron_mapping_witness :
    (trimList ("x" : String).data ≠ []) ∧ formatTimestamp (some (TSVal.str "x")) = "x" :=
  ⟨by decide, c7_cron_mapping_amended.2.2.1 "x" (by decide)⟩

theorem scanLines_append (extra : List (List Char)) :
    ∀ (lines : List (List Char)) (inJson : Bool) (depth : Int) (acc : List Char),
      (scanLines inJson depth acc lines).2 = true →
      scanLines inJson depth acc (lines ++ extra) = scanLines inJson depth acc lines := by
  intro lines
  induction lines with
  | nil =>
    intro inJson depth acc h
    simp [scanLines] at h
  | cons line rest ih =>
    intro inJson depth acc h
    rw [List.cons_append]
    simp only [scanLines] at h ⊢
    split at h
    next h1 =>
      split at h
      next h2 =>
        have h3 : trimList (acc ++ (line ++ ['\n'])) ≠ [] := by
          rw [← List.append_assoc]
          exact h2.2
        simp [h1, h2.1, h3]
      next h2 =>
        simp only [if_pos h1, if_neg h2]
        exact ih _ _ _ h
    next h1 =>
      simp only [if_neg h1]
      exact ih _ _ _ h

theorem runCommandOnLines_append (lines extra : List (List Char))
    (h : (scanLines false 0 [] lines).2 = true) :
    runCommandOnLines (lines ++ extra) = runCommandOnLines lines := by
  unfold runCommandOnLines
  rw [scanLines_append extra lines false 0 [] h]

/-- C3 (counterexample): the route adapter `runOpenClawJson` does not stop at
the balanced substring - it parses from the first bracket to the end of the
output, so the noise line after `{}` flips a successful parse into null,
contradicting the claimed noise insensitivity. -/
theorem c3_counterexample :
    runOpenClawJson_model (CliOutcome.output "\x7b\x7d") = some (Json.obj [])
    ∧ runOpenClawJson_model (CliOutcome.output "\x7b\x7d\nnoise") = none :=
  ⟨rfl, rfl⟩

/-- C3 (amended): the depth-tracking extraction belongs to the build script's
`runCommand`: it starts at the first line whose trimmed form begins with `[`
or `{`, accumulates whole lines while tracking bracket depth, stops once
depth returns to zero with non-blank text, and parses exactly that
accumulated substring, so lines after the balanced value never change its
result (first conjunct, for any stopped scan and any trailing lines); the
route's `runOpenClawJson` instead parses from the first bracket to the end of
the trimmed output, so trailing noise after the balanced value makes it
return null; both return null when no opening bracket is found or the parse
fails. -/
theorem c3_extraction_amended :
    (∀ lines extra, (scanLines false 0 [] lines).2 = true →
      runCommandOnLines (lines ++ extra) = runCommandOnLines lines)
    ∧ runCommand_model "\x7b\x7d\nnoise" = some (Json.obj [])
    ∧ runOpenClawJson_model (CliOutcome.output "\x7b\x7d\nnoise") = none
    ∧ runOpenClawJson_model (CliOutcome.output "\x7b\x7d") = some (Json.obj []) :=
  ⟨fun lines extra h => runCommandOnLines_append lines extra h, rfl, rfl, rfl⟩

/-- C3 (witness): the scanner stops on the single line `{}` and appending a
noise line leaves `runCommand`'s extraction unchanged. -/
theorem c3_extraction_witness :
    ((scanLines false 0 [] [("\x7b\x7d" : String).data]).2 = true)
    ∧ runCommandOnLines ([("\x7b\x7d" : String).data] ++ [("noise" : String).data])
      = runCommandOnLines [("\x7b\x7d" : String).data] :=
  ⟨rfl, c3_extraction_amended.1 [("\x7b\x7d" : String).data] [("noise" : String).data] rfl⟩

theorem dropWhile_self (p : Char → Bool) :
    ∀ l : List Char, List.dropWhile p (List.dropWhile p l) = List.dropWhile p l := by
  intro l
  induction l with
  | nil => simp
  | cons a t ih => cases hp : p a <;> simp [List.dropWhile_cons, hp, ih]

theorem dropWhile_append_split (p : Char → Bool) :
    ∀ a b : List Char, List.dropWhile p (a ++ b)
      = if List.dropWhile p a = [] then List.dropWhile p b
        else List.dropWhile p a ++ b := by
  intro a
  induction a with
  | nil => simp
  | cons x t ih =>
    intro b
    cases hp : p x
    · simp [List.dropWhile_cons, hp]
    · simp [List.dropWhile_cons, hp, ih b]

theorem rtrimL_append (a b : List Char) :
    rtrimL (a ++ b) = if rtrimL b = [] then rtrimL a else a ++ rtrimL b := by
  unfold rtrimL
  rw [List.reverse_append, dropWhile_append_split]
  by_cases h : List.dropWhile jsWs b.reverse = []
  · simp [h]
  · have hb : ¬(List.dropWhile jsWs b.reverse).reverse = [] := by simpa using h
    simp [h, hb, List.reverse_append]

theorem rtrimL_idem (l : List Char) : rtrimL (rtrimL l) = rtrimL l := by
  show ((((l.reverse.dropWhile jsWs).reverse).reverse).dropWhile jsWs).reverse = _
  rw [List.reverse_reverse, dropWhile_self]
  rfl

theorem rtrimL_trimList (l : List Char) : rtrimL (trimList l) = trimList l := by
  unfold trimList
  exact rtrimL_idem _

theorem ltrim_of_head (c : Char) (hc : jsWs c = false) (t : List Char) :
    List.dropWhile jsWs (c :: t) = c :: t := by
  simp [List.dropWhile_cons, hc]

theorem ltrim_today_append (x : List Char) :
    List.dropWhile jsWs (todayDate.data ++ x) = todayDate.data ++ x := by
  have h : todayDate.data = '2' :: ("026-02-10" : String).data := rfl
  rw [h, List.cons_append, ltrim_of_head '2' (by decide)]

theorem rtrim_today : rtrimL todayDate.data = todayDate.data := by decide

theorem rtrim_today_space : rtrimL (todayDate.data ++ [' ']) = todayDate.data := by decide

theorem trimList_label (rt : List Char) (h : rtrimL rt = rt) :
    trimList (todayDate.data ++ ' ' :: rt) = labelOf rt := by
  unfold trimList ltrimL
  rw [ltrim_today_append]
  by_cases hrt : rt = []
  · subst hrt
    show rtrimL (todayDate.data ++ [' ']) = labelOf []
    rw [rtrim_today_space]
    rfl
  · have h1 : (' ' :: rt : List Char) = [' '] ++ rt := rfl
    have h2 : rtrimL ([' '] ++ rt) = [' '] ++ rt := by
      rw [rtrimL_append, h]
      simp [hrt]
    rw [h1, rtrimL_append, h2]
    simp [hrt, labelOf]

theorem labelOf_inj : ∀ a b : List Char, labelOf a = labelOf b → a = b := by
  intro a b h
  unfold labelOf at h
  by_cases ha : a = [] <;> by_cases hb : b = []
  · rw [ha, hb]
  · rw [if_pos ha, if_neg hb] at h
    exfalso
    have hlen := congrArg List.length h
    simp [List.length_append] at hlen
  · rw [if_neg ha, if_pos hb] at h
    exfalso
    have hlen := congrArg List.length h
    simp [List.length_append] at hlen
  · rw [if_neg ha, if_neg hb] at h
    have h2 : (' ' :: a : List Char) = ' ' :: b := List.append_cancel_left h
    exact (List.cons.injEq _ _ _ _).mp h2 |>.2

theorem tripleDistinct_symm {a b : Horse} (h : tripleDistinct a b) : tripleDistinct b a := by
  intro hc
  exact h ⟨hc.1.symm, hc.2.1.symm, hc.2.2.symm⟩

theorem goodRecord_mono (k : String) (seen : List String) (r : Horse)
    (h : goodRecord seen r) : goodRecord (k :: seen) r := by
  obtain ⟨rt, h1, h2, h3, h4⟩ := h
  exact ⟨rt, h1, h2, h3, List.mem_cons_of_mem _ h4⟩

theorem b2lLoop_inv :
    ∀ (lines : List (List Char)) (cur : String) (seen : List String) (acc : List Horse),
      List.Pairwise tripleDistinct acc →
      (∀ r ∈ acc, goodRecord seen r) →
      List.Pairwise tripleDistinct (b2lLoop cur seen acc lines)
      ∧ (∀ r ∈ b2lLoop cur seen acc lines,
          ∃ rt, r.race = String.mk (labelOf rt) ∧ r.date = some todayDate) := by
  intro lines
  induction lines with
  | nil =>
    intro cur seen acc hp hg
    refine ⟨hp, ?_⟩
    intro r hr
    obtain ⟨rt, _, h2, h3, _⟩ := hg r hr
    exact ⟨rt, h2, h3⟩
  | cons line rest ih =>
    intro cur seen acc hp hg
    cases hd : dateHeadingMatch line with
    | some d =>
      simp only [b2lLoop, hd]
      exact ih (String.mk d) seen acc hp hg
    | none =>
      cases he : entryMatch (normalizeLine line) with
      | none =>
        simp only [b2lLoop, hd, he]
        exact ih cur seen acc hp hg
      | some trip =>
        obtain ⟨race0, nameC, restC⟩ := trip
        simp only [b2lLoop, hd, he]
        by_cases hED : (entryDateAndRace cur race0).1 ≠ todayDate
        · simp only [if_pos hED]
          exact ih cur seen acc hp hg
        · simp only [if_neg hED]
          have heq : (entryDateAndRace cur race0).1 = todayDate := not_not.mp hED
          by_cases hk : entryKey nameC (entryDateAndRace cur race0).2
              (entryDateAndRace cur race0).1 ∈ seen
          · simp only [if_pos hk]
            exact ih cur seen acc hp hg
          · simp only [if_neg hk]
            by_cases hn : trimList nameC = []
            · simp only [if_pos hn]
              refine ih cur (_ :: seen) acc hp ?_
              intro r hr
              exact goodRecord_mono _ seen r (hg r hr)
            · simp only [if_neg hn]
              have hrt' : rtrimL (trimList (entryDateAndRace cur race0).2)
                  = trimList (entryDateAndRace cur race0).2 := rtrimL_trimList _
              have hrace : (mkHorse nameC (entryDateAndRace cur race0).2 restC
                  (entryDateAndRace cur race0).1).race
                  = String.mk (labelOf (trimList (entryDateAndRace cur race0).2)) := by
                show String.mk (raceLabelC (entryDateAndRace cur race0).1
                    (entryDateAndRace cur race0).2) = _
                congr 1
                show trimList ((if (entryDateAndRace cur race0).1 ≠ "" then
                    (entryDateAndRace cur race0).1.data ++ [' '] else [])
                    ++ trimList (entryDateAndRace cur race0).2) = _
                rw [heq, if_pos (by decide : todayDate ≠ ""), List.append_assoc]
                exact trimList_label (trimList (entryDateAndRace cur race0).2) hrt'
              have hdate : (mkHorse nameC (entryDateAndRace cur race0).2 restC
                  (entryDateAndRace cur race0).1).date = some todayDate := by
                show (if (entryDateAndRace cur race0).1 = "" then none
                    else some (entryDateAndRace cur race0).1) = _
                rw [heq, if_neg (by decide : ¬(todayDate = ""))]
              have hkeyeq : entryKey nameC (entryDateAndRace cur race0).2
                  (entryDateAndRace cur race0).1
                  = String.mk ((mkHorse nameC (entryDateAndRace cur race0).2 restC
                      (entryDateAndRace cur race0).1).name.data
                    ++ '|' :: (trimList (entryDateAndRace cur race0).2
                      ++ '|' :: todayDate.data)) := by
                show String.mk (trimList nameC ++ '|' :: (trimList (entryDateAndRace cur race0).2
                    ++ '|' :: (entryDateAndRace cur race0).1.data)) = _
                rw [heq]
                rfl
              apply ih cur (entryKey nameC (entryDateAndRace cur race0).2
                  (entryDateAndRace cur race0).1 :: seen)
                (acc ++ [mkHorse nameC (entryDateAndRace cur race0).2 restC
                  (entryDateAndRace cur race0).1])
              · rw [List.pairwise_append]
                refine ⟨hp, List.pairwise_singleton _ _, ?_⟩
                intro a ha b hb
                have hb' : b = mkHorse nameC (entryDateAndRace cur race0).2 restC
                    (entryDateAndRace cur race0).1 := List.mem_singleton.mp hb
                subst hb'
                intro hcontra
                obtain ⟨he1, he2, he3⟩ := hcontra
                obtain ⟨rt, hrt0, hrace_a, hdate_a, hseen_a⟩ := hg a ha
                have h5 : String.mk (labelOf rt)
                    = String.mk (labelOf (trimList (entryDateAndRace cur race0).2)) := by
                  rw [← hrace_a, he2, hrace]
                have h6 : labelOf rt = labelOf (trimList (entryDateAndRace cur race0).2) :=
                  congrArg String.data h5
                have hrteq : rt = trimList (entryDateAndRace cur race0).2 := labelOf_inj _ _ h6
                apply hk
                have hkey2 : entryKey nameC (entryDateAndRace cur race0).2
                    (entryDateAndRace cur race0).1
                    = String.mk (a.name.data ++ '|' :: (rt ++ '|' :: todayDate.data)) := by
                  rw [hkeyeq, hrteq]
                  congr 2
                  rw [he1]
                rw [hkey2]
                exact hseen_a
              · intro r hr
                rw [List.mem_append] at hr
                cases hr with
                | inl hil => exact goodRecord_mono _ _ _ (hg r hil)
                | inr hir =>
                  have hr' : r = mkHorse nameC (entryDateAndRace cur race0).2 restC
                      (entryDateAndRace cur race0).1 := List.mem_singleton.mp hir
                  subst hr'
                  refine ⟨trimList (entryDateAndRace cur race0).2, hrt', hrace, hdate, ?_⟩
                  rw [← hkeyeq]
                  exact List.mem_cons_self _ _

theorem insertByTime_perm (r : Horse) : ∀ l, List.Perm (insertByTime r l) (r :: l) := by
  intro l
  induction l with
  | nil => exact List.Perm.refl _
  | cons x xs ih =>
    by_cases h : timeKey x.race < timeKey r.race
    · simp only [insertByTime, if_pos h]
      exact List.Perm.refl _
    · simp only [insertByTime, if_neg h]
      exact (List.Perm.cons x ih).trans (List.Perm.swap r x xs)

theorem sortByTimeDesc_perm : ∀ l, List.Perm (sortByTimeDesc l) l := by
  intro l
  induction l with
  | nil => exact List.Perm.refl _
  | cons x xs ih => exact (insertByTime_perm x _).trans (List.Perm.cons x ih)

/-- C9: no two records in the record-window parser's output share the
composite (name, race, date) key - the first occurrence of each key wins in
the loop, and the pairwise distinctness survives the descending time sort
(a permutation) and the truncation to two records (a sublist). -/
theorem c9_dedup_invariant (content : String) :
    List.Pairwise (fun a b => ¬(a.name = b.name ∧ a.race = b.race ∧ a.date = b.date))
      (parseB2LHorses content) := by
  have h := b2lLoop_inv (splitLines content.data) "" [] []
    List.Pairwise.nil (by intro r hr; simp at hr)
  have hperm := sortByTimeDesc_perm (b2lLoop "" [] [] (splitLines content.data))
  have hp2 : List.Pairwise tripleDistinct
      (sortByTimeDesc (b2lLoop "" [] [] (splitLines content.data))) :=
    (hperm.pairwise_iff (by intro a b hab; exact tripleDistinct_symm hab)).mpr h.1
  exact List.Pairwise.sublist (List.take_sublist 2 _) hp2

/-- C10 (counterexample): the entry line `- **2026-02-10  ** - *Horse* : note`
has a blank race text after the inline date is stripped, so the outer trim of
the race label removes the trailing space and the output race field is
exactly the date `2026-02-10`, which does not begin with the date followed by
a space. -/
theorem c10_counterexample :
    parseB2LHorses "- **2026-02-10  ** - *Horse* : note"
      = [⟨"Horse", "2026-02-10", "n/a", "note", some "2026-02-10"⟩]
    ∧ strStarts ("2026-02-10 " : String).data ("2026-02-10" : String).data = false :=
  ⟨by decide, by decide⟩

/-- C10 (amended): every record returned by the record-window parser has a
race field that begins with the configured target date: it is the date
followed by a space and the stripped race text when that text is non-blank,
and exactly the date otherwise. -/
theorem c10_race_date_lead_amended (content : String) (r : Horse)
    (h : r ∈ parseB2LHorses content) :
    ∃ rest : List Char, r.race.data = todayDate.data ++ rest := by
  have hmem : r ∈ sortByTimeDesc (b2lLoop "" [] [] (splitLines content.data)) :=
    (List.take_sublist 2 _).subset h
  have hmem2 : r ∈ b2lLoop "" [] [] (splitLines content.data) :=
    (sortByTimeDesc_perm _).mem_iff.mp hmem
  have hinv := b2lLoop_inv (splitLines content.data) "" [] []
    List.Pairwise.nil (by intro x hx; simp at hx)
  obtain ⟨rt, hrace, _⟩ := hinv.2 r hmem2
  have hdata : r.race.data = labelOf rt := by rw [hrace]
  unfold labelOf at hdata
  by_cases hrt : rt = []
  · rw [if_pos hrt] at hdata
    exact ⟨[], by rw [hdata]; simp⟩
  · rw [if_neg hrt] at hdata
    exact ⟨' ' :: rt, hdata⟩

/-- C10 (witness): the record parsed from the counterexample line is a member
of the output and its race begins with the target date. -/
theorem c10_race_date_lead_witness :
    ((⟨"Horse", "2026-02-10", "n/a", "note", some "2026-02-10"⟩ : Horse)
        ∈ parseB2LHorses "- **2026-02-10  ** - *Horse* : note")
    ∧ ∃ rest : List Char,
        (⟨"Horse", "2026-02-10", "n/a", "note", some "2026-02-10"⟩ : Horse).race.data
          = todayDate.data ++ rest :=
  ⟨by decide, c10_race_date_lead_amended "- **2026-02-10  ** - *Horse* : note" _ (by decide)⟩
